import Mathlib

/-!
Verification of the scroll-driven camera interpolator, the narrative section
selector and the elevation fetch/cache pipeline of the 3d-terrain-website
repository.  Numeric values are modelled over `ℚ` (the pure arithmetic of the
source is exact on the inputs the claims speak about); the per-frame temporal
smoothing, which uses a real exponential `Math.pow 0.001 delta`, is modelled
over `ℝ`.
-/

/-! ## Scroll-to-camera interpolator (src/components/scene/ScrollDrivenCamera.tsx) -/

/-- A camera keyframe: scroll offset, position, look-at target, optional
field-of-view.  Mirrors the `CameraKeyframe` configuration structure. -/
structure CameraKeyframe where
  offset : ℚ
  position : ℚ × ℚ × ℚ
  target : ℚ × ℚ × ℚ
  fov : Option ℚ
deriving DecidableEq, Repr

/-- `THREE.MathUtils.lerp x y t = x + (y - x) * t`. -/
def lerp (x y t : ℚ) : ℚ := x + (y - x) * t

/-- `easeInOutCubic` from ScrollDrivenCamera.tsx:
`t < 0.5 ? 4*t*t*t : 1 - Math.pow(-2*t+2, 3)/2`. -/
def easeInOutCubic (t : ℚ) : ℚ :=
  if t < 1/2 then 4 * t * t * t else 1 - (-2 * t + 2)^3 / 2

/-- The scan of the `for` loop inside `findKeyframeRange`: walk over adjacent
pairs and return the first pair `(a, b)` with
`a.offset <= offset && b.offset >= offset`; `none` when no pair matches. -/
def findAux : List CameraKeyframe → ℚ → Option (CameraKeyframe × CameraKeyframe)
  | a :: b :: rest, o =>
      if a.offset ≤ o ∧ o ≤ b.offset then some (a, b) else findAux (b :: rest) o
  | _, _ => none

/-- Placeholder keyframe used only to totalise head/last on the empty list;
the source indexes `sortedKeyframes[0]` and would yield `undefined` there, and
every claim is stated on non-empty lists. -/
def defaultKF : CameraKeyframe := ⟨0, (0, 0, 0), (0, 0, 0), none⟩

/-- `findKeyframeRange`: `before`/`after` default to the first and last
keyframe of the sorted list and are replaced by the first bracketing adjacent
pair found by the loop. -/
def findKeyframeRange (kfs : List CameraKeyframe) (o : ℚ) :
    CameraKeyframe × CameraKeyframe :=
  match findAux kfs o with
  | some p => p
  | none => (kfs.headD defaultKF, kfs.getLastD defaultKF)

/-- The local interpolation factor `t` of `interpolateKeyframes`:
`range > 0 ? (offset - before.offset) / range : 0`. -/
def localParam (before after : CameraKeyframe) (o : ℚ) : ℚ :=
  let range := after.offset - before.offset
  if range > 0 then (o - before.offset) / range else 0

/-- `interpolateKeyframes`: the instantaneous interpolated pose
(`targetPosition`, `targetLookAt`, and the interpolated fov when both
bracketing keyframes define one).  The separate per-frame camera smoothing is
modelled by `smoothStep` below. -/
def interpolateKeyframes (kfs : List CameraKeyframe) (o : ℚ) :
    (ℚ × ℚ × ℚ) × (ℚ × ℚ × ℚ) × Option ℚ :=
  let p := findKeyframeRange kfs o
  let before := p.1
  let after := p.2
  let eased := easeInOutCubic (localParam before after o)
  let pos := (lerp before.position.1 after.position.1 eased,
              lerp before.position.2.1 after.position.2.1 eased,
              lerp before.position.2.2 after.position.2.2 eased)
  let tgt := (lerp before.target.1 after.target.1 eased,
              lerp before.target.2.1 after.target.2.1 eased,
              lerp before.target.2.2 after.target.2.2 eased)
  let fov := match before.fov, after.fov with
    | some bf, some af => some (lerp bf af eased)
    | _, _ => none
  (pos, tgt, fov)

/-! ## Narrative section selector (NarrativeOverlay, getSectionProgress) -/

/-- A narrative section's scroll range; the textual fields of the source
structure play no part in `getSectionProgress` and are omitted. -/
structure NarrativeSection where
  scrollStart : ℚ
  scrollEnd : ℚ
deriving DecidableEq, Repr

/-- `getSectionProgress` from NarrativeOverlay: triangular envelope of the
scroll progress over `[scrollStart, scrollEnd]`. -/
def getSectionProgress (s : NarrativeSection) (p : ℚ) : ℚ :=
  if p < s.scrollStart then 0
  else if p > s.scrollEnd then 0
  else
    let range := s.scrollEnd - s.scrollStart
    let mid := s.scrollStart + range / 2
    if p < mid then (p - s.scrollStart) / (range / 2)
    else 1 - (p - mid) / (range / 2)

/-- Betweenness of a value and two bounds, used to state the no-overshoot
property of the interpolation. -/
def between (x y v : ℚ) : Prop := min x y ≤ v ∧ v ≤ max x y

/-- Component-wise betweenness on triples. -/
def between3 (x y v : ℚ × ℚ × ℚ) : Prop :=
  between x.1 y.1 v.1 ∧ between x.2.1 y.2.1 v.2.1 ∧ between x.2.2 y.2.2 v.2.2

/-! ## Lemmas about the interpolator -/

theorem lerp_zero (x y : ℚ) : lerp x y 0 = x := by unfold lerp; ring

theorem lerp_one (x y : ℚ) : lerp x y 1 = y := by unfold lerp; ring

theorem ease_zero : easeInOutCubic 0 = 0 := by norm_num [easeInOutCubic]

theorem ease_one : easeInOutCubic 1 = 1 := by norm_num [easeInOutCubic]

/-- The pair scan returns nothing when the offset is below every keyframe
offset: each adjacent check needs `a.offset ≤ o`. -/
theorem findAux_none_below (kfs : List CameraKeyframe) (o : ℚ)
    (h : ∀ m ∈ kfs, o < m.offset) : findAux kfs o = none := by
  induction kfs with
  | nil => rfl
  | cons a rest ih =>
    cases rest with
    | nil => rfl
    | cons b rest2 =>
      have ha : o < a.offset := h a (by simp)
      have hno : ¬(a.offset ≤ o ∧ o ≤ b.offset) := fun hc => absurd hc.1 (not_le.mpr ha)
      show (if a.offset ≤ o ∧ o ≤ b.offset then some (a, b)
            else findAux (b :: rest2) o) = none
      rw [if_neg hno]
      exact ih (fun m hm => h m (by simp [hm]))

/-- The pair scan returns nothing when the offset is above every keyframe
offset: each adjacent check needs `o ≤ b.offset`. -/
theorem findAux_none_above (kfs : List CameraKeyframe) (o : ℚ)
    (h : ∀ m ∈ kfs, m.offset < o) : findAux kfs o = none := by
  induction kfs with
  | nil => rfl
  | cons a rest ih =>
    cases rest with
    | nil => rfl
    | cons b rest2 =>
      have hb : b.offset < o := h b (by simp)
      have hno : ¬(a.offset ≤ o ∧ o ≤ b.offset) := fun hc => absurd hc.2 (not_le.mpr hb)
      show (if a.offset ≤ o ∧ o ≤ b.offset then some (a, b)
            else findAux (b :: rest2) o) = none
      rw [if_neg hno]
      exact ih (fun m hm => h m (by simp [hm]))

/-- On a strictly sorted list, the scan finds exactly the adjacent pair
`(kfs[j], kfs[j+1])` when evaluated at the offset of `kfs[j+1]`. -/
theorem findAux_at (kfs : List CameraKeyframe)
    (hs : kfs.Pairwise (fun u v => u.offset < v.offset)) :
    ∀ j (hj : j + 1 < kfs.length),
      findAux kfs (kfs[j + 1].offset) = some (kfs[j], kfs[j + 1]) := by
  induction kfs with
  | nil => intro j hj; simp at hj
  | cons a rest ih =>
    intro j hj
    cases rest with
    | nil => simp at hj
    | cons b rest2 =>
      rcases List.pairwise_cons.mp hs with ⟨hhead, htail⟩
      cases j with
      | zero =>
        have hab : a.offset < b.offset := hhead b (by simp)
        show (if a.offset ≤ b.offset ∧ b.offset ≤ b.offset then some (a, b)
              else findAux (b :: rest2) b.offset) = some (a, b)
        rw [if_pos ⟨le_of_lt hab, le_refl _⟩]
      | succ i =>
        have hj2 : i + 1 < (b :: rest2).length := by
          simpa [Nat.succ_lt_succ_iff] using hj
        have hidx : (a :: b :: rest2)[i + 1 + 1] = (b :: rest2)[i + 1] := rfl
        have hidx0 : (a :: b :: rest2)[i + 1] = (b :: rest2)[i] := rfl
        have hi2 : i < rest2.length := by simpa using hj2
        have hmem : (b :: rest2)[i + 1] ∈ rest2 := by
          have h4 : (b :: rest2)[i + 1] = rest2[i] := rfl
          rw [h4]
          exact List.getElem_mem hi2
        have hbo : b.offset < ((b :: rest2)[i + 1]).offset :=
          (List.pairwise_cons.mp htail).1 _ hmem
        have hno : ¬(a.offset ≤ ((b :: rest2)[i + 1]).offset ∧
            ((b :: rest2)[i + 1]).offset ≤ b.offset) :=
          fun hc => absurd hc.2 (not_le.mpr hbo)
        rw [hidx, hidx0]
        show (if a.offset ≤ ((b :: rest2)[i + 1]).offset ∧
              ((b :: rest2)[i + 1]).offset ≤ b.offset
              then some (a, (b :: rest2)[0])
              else findAux (b :: rest2) (((b :: rest2)[i + 1]).offset)) =
            some ((b :: rest2)[i], (b :: rest2)[i + 1])
        rw [if_neg hno]
        exact ih htail i hj2

/-- `findKeyframeRange` at an interior keyframe offset (index `j+1`). -/
theorem findKeyframeRange_at (kfs : List CameraKeyframe)
    (hs : kfs.Pairwise (fun u v => u.offset < v.offset))
    (j : ℕ) (hj : j + 1 < kfs.length) :
    findKeyframeRange kfs (kfs[j + 1].offset) = (kfs[j], kfs[j + 1]) := by
  unfold findKeyframeRange
  rw [findAux_at kfs hs j hj]

/-- `findKeyframeRange` at the first keyframe's offset of a list of length
at least two. -/
theorem findKeyframeRange_zero (a b : CameraKeyframe) (rest : List CameraKeyframe)
    (hab : a.offset ≤ b.offset) :
    findKeyframeRange (a :: b :: rest) a.offset = (a, b) := by
  unfold findKeyframeRange
  have : findAux (a :: b :: rest) a.offset = some (a, b) := by
    show (if a.offset ≤ a.offset ∧ a.offset ≤ b.offset then some (a, b)
          else findAux (b :: rest) a.offset) = some (a, b)
    rw [if_pos ⟨le_refl _, hab⟩]
  rw [this]

/-- `findKeyframeRange` on a singleton list always yields that keyframe
twice. -/
theorem findKeyframeRange_single (k : CameraKeyframe) (o : ℚ) :
    findKeyframeRange [k] o = (k, k) := rfl

/-- Value of the interpolation when the bracketing pair is known and the
offset equals the `before` keyframe's offset: the local parameter is `0`. -/
theorem interp_at_before (kfs : List CameraKeyframe) (b a : CameraKeyframe)
    (hFR : findKeyframeRange kfs b.offset = (b, a)) :
    (interpolateKeyframes kfs b.offset).1 = b.position ∧
    (interpolateKeyframes kfs b.offset).2.1 = b.target ∧
    (∀ bf af : ℚ, b.fov = some bf → a.fov = some af →
      (interpolateKeyframes kfs b.offset).2.2 = some bf) := by
  have ht : localParam b a b.offset = 0 := by
    simp only [localParam]
    split <;> simp
  refine ⟨?_, ?_, ?_⟩
  · simp only [interpolateKeyframes, hFR, ht, ease_zero, lerp_zero]
  · simp only [interpolateKeyframes, hFR, ht, ease_zero, lerp_zero]
  · intro bf af hbf haf
    simp only [interpolateKeyframes, hFR, ht, ease_zero, hbf, haf, lerp_zero]

/-- Value of the interpolation when the bracketing pair is known, the segment
has positive span and the offset equals the `after` keyframe's offset: the
local parameter is `1`. -/
theorem interp_at_after (kfs : List CameraKeyframe) (b a : CameraKeyframe)
    (hlt : b.offset < a.offset)
    (hFR : findKeyframeRange kfs a.offset = (b, a)) :
    (interpolateKeyframes kfs a.offset).1 = a.position ∧
    (interpolateKeyframes kfs a.offset).2.1 = a.target ∧
    (∀ bf af : ℚ, b.fov = some bf → a.fov = some af →
      (interpolateKeyframes kfs a.offset).2.2 = some af) := by
  have hpos : a.offset - b.offset > 0 := by linarith
  have ht : localParam b a a.offset = 1 := by
    simp only [localParam]
    rw [if_pos hpos, div_self (ne_of_gt hpos)]
  refine ⟨?_, ?_, ?_⟩
  · simp only [interpolateKeyframes, hFR, ht, ease_one, lerp_one]
  · simp only [interpolateKeyframes, hFR, ht, ease_one, lerp_one]
  · intro bf af hbf haf
    simp only [interpolateKeyframes, hFR, ht, ease_one, hbf, haf, lerp_one]

/-- Two concrete keyframes (offsets 0.2 and 0.6) used as explicit inputs. -/
def kfAdemo : CameraKeyframe := ⟨1/5, (0, 0, 0), (0, 0, 0), some 40⟩

/-- Second demo keyframe, strictly after `kfAdemo`. -/
def kfBdemo : CameraKeyframe := ⟨3/5, (10, 0, 0), (10, 0, 0), some 60⟩

/-- C1 counterexample: at offset `0.1`, strictly below the minimum keyframe
offset `0.2`, the bracketing step yields `after = last keyframe` (not the
first keyframe as claimed), and the interpolated x-position is `-5/8`, not
the first keyframe's `0`: the pose extrapolates beyond the boundary. -/
theorem C1_counterexample :
    (1/10 : ℚ) < kfAdemo.offset ∧ (1/10 : ℚ) < kfBdemo.offset ∧
    (findKeyframeRange [kfAdemo, kfBdemo] (1/10)).2 = kfBdemo ∧
    kfBdemo ≠ kfAdemo ∧
    (interpolateKeyframes [kfAdemo, kfBdemo] (1/10)).1.1 = -5/8 ∧
    kfAdemo.position.1 = 0 := by
  norm_num [kfAdemo, kfBdemo, findKeyframeRange, findAux, interpolateKeyframes,
    localParam, easeInOutCubic, lerp]

/-- C1 (amended): when the scroll offset lies strictly below every keyframe
offset, or strictly above every keyframe offset, the loop finds no bracketing
adjacent pair and the defaults stand: `before` is the FIRST keyframe and
`after` is the LAST keyframe of the sorted list (so the pose is computed along
the first-to-last segment with a local parameter outside `[0,1]`, an
extrapolation, not a clamp).  The pose equals the boundary keyframe exactly
only in the single-keyframe case, where the local parameter collapses to `0`.
-/
theorem C1_out_of_range_defaults (kfs : List CameraKeyframe) (o : ℚ)
    (h : (∀ m ∈ kfs, o < m.offset) ∨ (∀ m ∈ kfs, m.offset < o)) :
    findKeyframeRange kfs o = (kfs.headD defaultKF, kfs.getLastD defaultKF) ∧
    (∀ (k : CameraKeyframe) (q : ℚ),
      (interpolateKeyframes [k] q).1 = k.position ∧
      (interpolateKeyframes [k] q).2.1 = k.target ∧
      (interpolateKeyframes [k] q).2.2 = k.fov) := by
  constructor
  · unfold findKeyframeRange
    rcases h with hb | ha
    · rw [findAux_none_below kfs o hb]
    · rw [findAux_none_above kfs o ha]
  · intro k q
    have hFR : findKeyframeRange [k] q = (k, k) := rfl
    have ht : localParam k k q = 0 := by
      simp only [localParam]
      rw [if_neg]; simp
    refine ⟨?_, ?_, ?_⟩
    · simp only [interpolateKeyframes, hFR, ht, ease_zero, lerp_zero]
    · simp only [interpolateKeyframes, hFR, ht, ease_zero, lerp_zero]
    · simp only [interpolateKeyframes, hFR, ht, ease_zero]
      cases k.fov <;> simp [lerp_zero]

/-- C1 witness: the amended statement applied to the concrete two-keyframe
list at offset 0.1 (below the minimum offset 0.2). -/
theorem C1_out_of_range_defaults_witness :
    findKeyframeRange [kfAdemo, kfBdemo] (1/10) = (kfAdemo, kfBdemo) ∧
    (interpolateKeyframes [kfAdemo] (9/10)).1 = kfAdemo.position := by
  have h := C1_out_of_range_defaults [kfAdemo, kfBdemo] (1/10)
    (Or.inl (by intro m hm; fin_cases hm <;> norm_num [kfAdemo, kfBdemo]))
  exact ⟨h.1, (h.2 kfAdemo (9/10)).1⟩

/-- C2: on a strictly sorted keyframe list, evaluating the interpolation at
the offset of any keyframe `kfs[j]` yields exactly that keyframe's position
and target; and when both bracketing keyframes define a fov, the interpolated
fov is exactly `kfs[j]`'s fov. -/
theorem C2_exact_at_keyframes (kfs : List CameraKeyframe)
    (hs : kfs.Pairwise (fun u v => u.offset < v.offset))
    (j : ℕ) (hj : j < kfs.length) :
    (interpolateKeyframes kfs (kfs[j].offset)).1 = kfs[j].position ∧
    (interpolateKeyframes kfs (kfs[j].offset)).2.1 = kfs[j].target ∧
    (∀ bf af : ℚ,
      (findKeyframeRange kfs (kfs[j].offset)).1.fov = some bf →
      (findKeyframeRange kfs (kfs[j].offset)).2.fov = some af →
      (interpolateKeyframes kfs (kfs[j].offset)).2.2 = kfs[j].fov) := by
  cases j with
  | zero =>
    match kfs, hj with
    | a :: rest, hj =>
      cases rest with
      | nil =>
        have hFR : findKeyframeRange [a] a.offset = (a, a) := rfl
        have h := interp_at_before [a] a a hFR
        refine ⟨h.1, h.2.1, ?_⟩
        intro bf af hbf haf
        simp only [List.getElem_cons_zero] at hbf haf ⊢
        rw [hFR] at hbf haf
        rw [h.2.2 bf af hbf haf]
        exact hbf.symm
      | cons b rest2 =>
        have hab : a.offset < b.offset :=
          (List.pairwise_cons.mp hs).1 b (by simp)
        have hFR := findKeyframeRange_zero a b rest2 (le_of_lt hab)
        have h := interp_at_before (a :: b :: rest2) a b hFR
        refine ⟨h.1, h.2.1, ?_⟩
        intro bf af hbf haf
        simp only [List.getElem_cons_zero] at hbf haf ⊢
        rw [hFR] at hbf haf
        rw [h.2.2 bf af hbf haf]
        exact hbf.symm
  | succ i =>
    have hFR := findKeyframeRange_at kfs hs i hj
    have hlt : kfs[i].offset < kfs[i + 1].offset :=
      List.pairwise_iff_getElem.mp hs i (i + 1) (by omega) hj (by omega)
    have h := interp_at_after kfs kfs[i] kfs[i + 1] hlt hFR
    refine ⟨h.1, h.2.1, ?_⟩
    intro bf af hbf haf
    rw [hFR] at hbf haf
    rw [h.2.2 bf af hbf haf]
    exact haf.symm

/-- C2 witness: the two-keyframe demo list, at the second keyframe's offset
`0.6`: the interpolated pose is exactly that keyframe's. -/
theorem C2_exact_at_keyframes_witness :
    (interpolateKeyframes [kfAdemo, kfBdemo] (([kfAdemo, kfBdemo])[1].offset)).1 =
      ([kfAdemo, kfBdemo])[1].position ∧
    (interpolateKeyframes [kfAdemo, kfBdemo] (([kfAdemo, kfBdemo])[1].offset)).2.2 =
      ([kfAdemo, kfBdemo])[1].fov := by
  have h := C2_exact_at_keyframes [kfAdemo, kfBdemo]
    (by simp [kfAdemo, kfBdemo]; norm_num) 1 (by simp)
  refine ⟨h.1, h.2.2 40 60 ?_ ?_⟩
  · rw [findKeyframeRange_at [kfAdemo, kfBdemo]
      (by simp [kfAdemo, kfBdemo]; norm_num) 0 (by simp)]
    rfl
  · rw [findKeyframeRange_at [kfAdemo, kfBdemo]
      (by simp [kfAdemo, kfBdemo]; norm_num) 0 (by simp)]
    rfl

/-- C3: on `[0,1]` the easing function is exactly the claimed piecewise cubic
`4t^3` for `t < 1/2` and `1 - ((-2t+2)^3)/2` otherwise, and it maps `0 ↦ 0`,
`1/2 ↦ 1/2`, `1 ↦ 1` and `1/4 ↦ 1/16` (= 0.0625). -/
theorem C3_easing_formula (t : ℚ) (_h0 : 0 ≤ t) (_h1 : t ≤ 1) :
    easeInOutCubic t = (if t < 1/2 then 4 * t^3 else 1 - (-2*t + 2)^3 / 2) ∧
    easeInOutCubic 0 = 0 ∧ easeInOutCubic (1/2) = 1/2 ∧
    easeInOutCubic 1 = 1 ∧ easeInOutCubic (1/4) = 1/16 := by
  refine ⟨?_, ease_zero, by norm_num [easeInOutCubic], ease_one,
    by norm_num [easeInOutCubic]⟩
  unfold easeInOutCubic
  split <;> ring

/-- C3 witness: the theorem applied at the concrete input `t = 1/4`. -/
theorem C3_easing_formula_witness :
    easeInOutCubic (1/4) = 1/16 ∧ easeInOutCubic (1/2) = 1/2 :=
  ⟨(C3_easing_formula (1/4) (by norm_num) (by norm_num)).2.2.2.2,
   (C3_easing_formula (1/4) (by norm_num) (by norm_num)).2.2.1⟩

/-- C9: for a section with `scrollStart < scrollEnd`, the local progress is
the claimed triangular envelope: `(p - start)/((end-start)/2)` on the first
half, `1 - (p - mid)/((end-start)/2)` on the second half, `0` at both
endpoints, `1` at the midpoint; concretely for `start=0.2, end=0.6` the
progress at `0.4` is `1` and at `0.3` is `1/2`. -/
theorem C9_section_progress (s : NarrativeSection) (p : ℚ)
    (h : s.scrollStart < s.scrollEnd) :
    (s.scrollStart ≤ p → p < s.scrollStart + (s.scrollEnd - s.scrollStart)/2 →
      getSectionProgress s p = (p - s.scrollStart) / ((s.scrollEnd - s.scrollStart)/2)) ∧
    (s.scrollStart + (s.scrollEnd - s.scrollStart)/2 ≤ p → p ≤ s.scrollEnd →
      getSectionProgress s p =
        1 - (p - (s.scrollStart + (s.scrollEnd - s.scrollStart)/2)) /
          ((s.scrollEnd - s.scrollStart)/2)) ∧
    getSectionProgress s s.scrollStart = 0 ∧
    getSectionProgress s s.scrollEnd = 0 ∧
    getSectionProgress s (s.scrollStart + (s.scrollEnd - s.scrollStart)/2) = 1 ∧
    getSectionProgress ⟨1/5, 3/5⟩ (2/5) = 1 ∧
    getSectionProgress ⟨1/5, 3/5⟩ (3/10) = 1/2 := by
  have hr : (0 : ℚ) < s.scrollEnd - s.scrollStart := by linarith
  have hr2 : (0 : ℚ) < (s.scrollEnd - s.scrollStart)/2 := by linarith
  refine ⟨?_, ?_, ?_, ?_, ?_, ?_, ?_⟩
  · intro hp1 hp2
    unfold getSectionProgress
    rw [if_neg (not_lt.mpr hp1), if_neg (by simp only [not_lt, gt_iff_lt]; linarith),
      if_pos hp2]
  · intro hp1 hp2
    unfold getSectionProgress
    rw [if_neg (by simp only [not_lt]; linarith), if_neg (by simp only [not_lt, gt_iff_lt]; linarith),
      if_neg (not_lt.mpr hp1)]
  · unfold getSectionProgress
    rw [if_neg (by simp only [not_lt]; exact le_refl _), if_neg (by simp only [not_lt, gt_iff_lt]; linarith),
      if_pos (by linarith)]
    simp
  · unfold getSectionProgress
    rw [if_neg (by simp only [not_lt]; linarith), if_neg (by simp only [not_lt, gt_iff_lt]; exact le_refl _),
      if_neg (by simp only [not_lt]; linarith)]
    have : s.scrollEnd - (s.scrollStart + (s.scrollEnd - s.scrollStart)/2) =
        (s.scrollEnd - s.scrollStart)/2 := by ring
    rw [this, div_self (ne_of_gt hr2)]
    ring
  · unfold getSectionProgress
    rw [if_neg (by simp only [not_lt]; linarith), if_neg (by simp only [not_lt, gt_iff_lt]; linarith),
      if_neg (by simp only [not_lt]; exact le_refl _)]
    simp
  · norm_num [getSectionProgress]
  · norm_num [getSectionProgress]

/-- C9 witness: the theorem applied to the concrete section
`(scrollStart, scrollEnd) = (0.2, 0.6)` at offset `0.3`. -/
theorem C9_section_progress_witness :
    getSectionProgress ⟨1/5, 3/5⟩ (2/5) = 1 ∧
    getSectionProgress ⟨1/5, 3/5⟩ (3/10) = 1/2 :=
  ⟨(C9_section_progress ⟨1/5, 3/5⟩ (3/10) (by norm_num)).2.2.2.2.2.1,
   (C9_section_progress ⟨1/5, 3/5⟩ (3/10) (by norm_num)).2.2.2.2.2.2⟩

/-- Monotonicity of the cubic ease on `[0,1]`. -/
theorem ease_mono (t1 t2 : ℚ) (h0 : 0 ≤ t1) (h12 : t1 ≤ t2) (h1 : t2 ≤ 1) :
    easeInOutCubic t1 ≤ easeInOutCubic t2 := by
  unfold easeInOutCubic
  rcases lt_or_ge t1 (1/2) with ha | ha <;> rcases lt_or_ge t2 (1/2) with hb | hb
  · rw [if_pos ha, if_pos hb]
    nlinarith [mul_nonneg h0 h0, mul_nonneg (h0.trans h12) (h0.trans h12),
      mul_nonneg h0 (h0.trans h12), sub_nonneg.mpr h12]
  · rw [if_pos ha, if_neg (not_lt.mpr hb)]
    nlinarith [mul_nonneg h0 h0, sq_nonneg (2 - 2*t2), sq_nonneg t1]
  · linarith
  · rw [if_neg (not_lt.mpr ha), if_neg (not_lt.mpr hb)]
    nlinarith [sq_nonneg (2 - 2*t1), sq_nonneg (2 - 2*t2),
      mul_nonneg (by linarith : (0:ℚ) ≤ 2 - 2*t2) (by linarith : (0:ℚ) ≤ 2 - 2*t1),
      sub_nonneg.mpr h12]

/-- The ease maps `[0,1]` into `[0,1]`. -/
theorem ease_bounds (t : ℚ) (h0 : 0 ≤ t) (h1 : t ≤ 1) :
    0 ≤ easeInOutCubic t ∧ easeInOutCubic t ≤ 1 := by
  constructor
  · have := ease_mono 0 t (le_refl 0) h0 h1
    rw [ease_zero] at this; exact this
  · have := ease_mono t 1 h0 h1 (le_refl 1)
    rw [ease_one] at this; exact this

/-- Linear interpolation with a parameter in `[0,1]` stays between its two
endpoints. -/
theorem lerp_between (a b e : ℚ) (h0 : 0 ≤ e) (h1 : e ≤ 1) :
    min a b ≤ lerp a b e ∧ lerp a b e ≤ max a b := by
  unfold lerp
  rcases le_total a b with hab | hab
  · rw [min_eq_left hab, max_eq_right hab]
    constructor <;> nlinarith
  · rw [min_eq_right hab, max_eq_left hab]
    constructor <;> nlinarith

/-- The local parameter stays in `[0,1]` whenever the offset lies between the
bracketing offsets. -/
theorem localParam_bounds (bf af : CameraKeyframe) (o : ℚ)
    (hb : bf.offset ≤ o) (ha : o ≤ af.offset) :
    0 ≤ localParam bf af o ∧ localParam bf af o ≤ 1 := by
  simp only [localParam]
  split
  · constructor
    · apply div_nonneg (by linarith) (by linarith)
    · rw [div_le_one (by linarith)]; linarith
  · norm_num

/-- C10: the ease is monotone on `[0,1]` and maps it into `[0,1]`; a lerp at
an eased parameter in `[0,1]` stays between its endpoints; hence, whenever
the scroll offset lies between the bracketing keyframes' offsets, every
component of the instantaneous interpolated position and target lies between
the corresponding components of those two keyframes (no overshoot). -/
theorem C10_no_overshoot (t t1 t2 a b o : ℚ) (kfs : List CameraKeyframe)
    (h0 : 0 ≤ t) (h1 : t ≤ 1) (h2 : 0 ≤ t1) (h3 : t1 ≤ t2) (h4 : t2 ≤ 1)
    (hb : (findKeyframeRange kfs o).1.offset ≤ o)
    (ha : o ≤ (findKeyframeRange kfs o).2.offset) :
    easeInOutCubic t1 ≤ easeInOutCubic t2 ∧
    (0 ≤ easeInOutCubic t ∧ easeInOutCubic t ≤ 1) ∧
    (min a b ≤ lerp a b (easeInOutCubic t) ∧ lerp a b (easeInOutCubic t) ≤ max a b) ∧
    between3 (findKeyframeRange kfs o).1.position
      (findKeyframeRange kfs o).2.position (interpolateKeyframes kfs o).1 ∧
    between3 (findKeyframeRange kfs o).1.target
      (findKeyframeRange kfs o).2.target (interpolateKeyframes kfs o).2.1 := by
  obtain ⟨he0, he1⟩ := ease_bounds t h0 h1
  obtain ⟨ht0, ht1⟩ :=
    localParam_bounds (findKeyframeRange kfs o).1 (findKeyframeRange kfs o).2 o hb ha
  obtain ⟨hee0, hee1⟩ := ease_bounds _ ht0 ht1
  refine ⟨ease_mono t1 t2 h2 h3 h4, ⟨he0, he1⟩, lerp_between a b _ he0 he1, ?_, ?_⟩
  · exact ⟨lerp_between _ _ _ hee0 hee1, lerp_between _ _ _ hee0 hee1,
      lerp_between _ _ _ hee0 hee1⟩
  · exact ⟨lerp_between _ _ _ hee0 hee1, lerp_between _ _ _ hee0 hee1,
      lerp_between _ _ _ hee0 hee1⟩

/-- C10 witness: the theorem applied to the demo keyframes at offset `0.4`
(inside the segment), with concrete ease arguments. -/
theorem C10_no_overshoot_witness :
    between3 (findKeyframeRange [kfAdemo, kfBdemo] (2/5)).1.position
      (findKeyframeRange [kfAdemo, kfBdemo] (2/5)).2.position
      (interpolateKeyframes [kfAdemo, kfBdemo] (2/5)).1 ∧
    easeInOutCubic (1/4) ≤ easeInOutCubic (1/2) := by
  have h := C10_no_overshoot (1/4) (1/4) (1/2) 0 10 (2/5) [kfAdemo, kfBdemo]
    (by norm_num) (by norm_num) (by norm_num) (by norm_num) (by norm_num)
    (by norm_num [findKeyframeRange, findAux, kfAdemo, kfBdemo])
    (by norm_num [findKeyframeRange, findAux, kfAdemo, kfBdemo])
  exact ⟨h.2.2.2.1, h.1⟩

/-! ## Per-frame temporal smoothing (useFrame callback of ScrollDrivenCamera)

The callback computes `lerpFactor = 1 - Math.pow(0.001, delta)` and advances
each displayed component toward its instantaneous target by
`Vector3.lerp`, i.e. `current + (target - current) * lerpFactor`.  Modelled
over `ℝ` with the real power function. -/

/-- `lerpFactor = 1 - 0.001 ^ delta` (real exponentiation). -/
noncomputable def lerpFactor (delta : ℝ) : ℝ := 1 - (0.001 : ℝ) ^ delta

/-- One smoothing step of a single pose component:
`current.lerp(target, lerpFactor)`. -/
noncomputable def smoothStep (delta cur target : ℝ) : ℝ :=
  cur + (target - cur) * lerpFactor delta

/-- A run of smoothing frames with the listed deltas against a fixed target.
-/
noncomputable def smoothRun : List ℝ → ℝ → ℝ → ℝ
  | [], cur, _ => cur
  | d :: ds, cur, target => smoothRun ds (smoothStep d cur target) target

/-- Distance to the target after one step is scaled by exactly
`0.001 ^ delta`. -/
theorem smoothStep_dist (d cur target : ℝ) :
    |smoothStep d cur target - target| = (0.001 : ℝ) ^ d * |cur - target| := by
  have hpos : (0 : ℝ) < (0.001 : ℝ) ^ d :=
    Real.rpow_pos_of_pos (by norm_num) d
  have : smoothStep d cur target - target = (0.001 : ℝ) ^ d * (cur - target) := by
    unfold smoothStep lerpFactor; ring
  rw [this, abs_mul, abs_of_pos hpos]

/-- Distance to the target after a run is scaled by `0.001` to the total
elapsed time. -/
theorem smoothRun_dist (ds : List ℝ) (cur target : ℝ) :
    |smoothRun ds cur target - target| =
      (0.001 : ℝ) ^ ds.sum * |cur - target| := by
  induction ds generalizing cur with
  | nil => simp [smoothRun, Real.rpow_zero]
  | cons d ds ih =>
    show |smoothRun ds (smoothStep d cur target) target - target| = _
    rw [ih, smoothStep_dist, List.sum_cons,
      Real.rpow_add (by norm_num : (0:ℝ) < 0.001)]
    ring

/-- C4: the smoothing factor is `1 - 0.001 ^ delta`; each step with positive
delta multiplies the distance to a fixed target by `0.001 ^ delta` (hence the
distance never increases); two successive steps with deltas `d1`, `d2`
compose to one step with delta `d1 + d2` (frame-rate independence); and over
runs of frames with positive deltas the distance to the target approaches
zero as the total elapsed time grows. -/
theorem C4_smoothing (cur target d d1 d2 : ℝ) (hd : 0 < d) :
    lerpFactor d = 1 - (0.001 : ℝ) ^ d ∧
    |smoothStep d cur target - target| = (0.001 : ℝ) ^ d * |cur - target| ∧
    |smoothStep d cur target - target| ≤ |cur - target| ∧
    smoothStep d2 (smoothStep d1 cur target) target =
      smoothStep (d1 + d2) cur target ∧
    (∀ e : ℝ, 0 < e → ∃ T : ℝ, ∀ ds : List ℝ,
      (∀ x ∈ ds, 0 < x) → T ≤ ds.sum →
      |smoothRun ds cur target - target| < e) := by
  have h001 : (0 : ℝ) < 0.001 := by norm_num
  refine ⟨rfl, smoothStep_dist d cur target, ?_, ?_, ?_⟩
  · rw [smoothStep_dist]
    have hle : (0.001 : ℝ) ^ d ≤ 1 :=
      Real.rpow_le_one (by norm_num) (by norm_num) (le_of_lt hd)
    exact mul_le_of_le_one_left (abs_nonneg _) hle
  · unfold smoothStep lerpFactor
    rw [Real.rpow_add h001]
    ring
  · intro e he
    rcases eq_or_ne (|cur - target|) 0 with hz | hnz
    · refine ⟨0, fun ds _ _ => ?_⟩
      rw [smoothRun_dist, hz, mul_zero]
      exact he
    · have hpos : 0 < |cur - target| := lt_of_le_of_ne (abs_nonneg _) (Ne.symm hnz)
      obtain ⟨n, hn⟩ := exists_pow_lt_of_lt_one
        (div_pos he hpos) (by norm_num : (0.001 : ℝ) < 1)
      refine ⟨n, fun ds _ hsum => ?_⟩
      rw [smoothRun_dist]
      have hmono : (0.001 : ℝ) ^ ds.sum ≤ (0.001 : ℝ) ^ ((n : ℕ) : ℝ) :=
        Real.rpow_le_rpow_of_exponent_ge h001 (by norm_num) hsum
      have hcast : (0.001 : ℝ) ^ ((n : ℕ) : ℝ) = (0.001 : ℝ) ^ (n : ℕ) :=
        Real.rpow_natCast _ n
      calc (0.001 : ℝ) ^ ds.sum * |cur - target|
          ≤ (0.001 : ℝ) ^ (n : ℕ) * |cur - target| := by
            apply mul_le_mul_of_nonneg_right _ (abs_nonneg _)
            rw [← hcast]; exact hmono
        _ < e := by
            rw [← lt_div_iff₀ hpos]
            exact hn

/-- C4 witness: the theorem applied at concrete inputs
`cur = 0, target = 1, d = d1 = d2 = 1`. -/
theorem C4_smoothing_witness :
    lerpFactor 1 = 1 - (0.001 : ℝ) ^ (1 : ℝ) ∧
    |smoothStep 1 0 1 - 1| = (0.001 : ℝ) ^ (1 : ℝ) * |(0 : ℝ) - 1| ∧
    |smoothStep 1 0 1 - 1| ≤ |(0 : ℝ) - 1| ∧
    smoothStep 1 (smoothStep 1 0 1) 1 = smoothStep (1 + 1) 0 1 := by
  have h := C4_smoothing 0 1 1 1 1 one_pos
  exact ⟨h.1, h.2.1, h.2.2.1, h.2.2.2.1⟩

/-! ## Elevation fetch/cache pipeline (free terrain elevation API client)

Network chunk requests are modelled by an oracle `ChunkOracle ε` giving each
chunk index either its list of elevation samples (the provider's decoded
response values after the source's `?? 0` / `|| 0` coercions) or a thrown
error of type `ε`.  `Math.cos(lat * π / 180)` is the host's floating-point
cosine; it is passed in as a parameter `cosDeg` since no claim depends on its
values.  Clock readings (`Date.now()`) are passed as explicit `now`
arguments, and `localStorage` is a function from cache keys to entries. -/

/-- Result tag: which provider (or the cache) produced an `ElevationData`. -/
inductive ElevationSource
  | opentopodata
  | openmeteo
  | openelevation
  | cache
deriving DecidableEq, Repr

/-- Provider identity, used to record which provider functions a
`fetchTerrain` call invoked. -/
inductive ProviderName
  | opentopodata
  | openmeteo
  | openelevation
deriving DecidableEq, Repr

/-- `ElevationAPIProvider`: a pinned provider or `auto`. -/
inductive ElevationAPIProvider
  | opentopodata
  | openmeteo
  | openelevation
  | auto
deriving DecidableEq, Repr

/-- Geographic bounding box. -/
structure Bounds where
  north : ℚ
  south : ℚ
  east : ℚ
  west : ℚ
deriving DecidableEq, Repr

/-- `TerrainConfig`; the source nests `lat`/`lng` under `center`, flattened
here. -/
structure TerrainConfig where
  lat : ℚ
  lng : ℚ
  zoom : ℤ
  tileSize : ℕ
  areaKm : ℚ
  resolution : ℕ
deriving DecidableEq, Repr

/-- `ElevationData`: the `Float32Array` of the source is a list of numbers.
-/
structure ElevationData where
  elevations : List ℚ
  width : ℕ
  height : ℕ
  minElevation : ℚ
  maxElevation : ℚ
  bounds : Bounds
  source : ElevationSource
deriving DecidableEq, Repr

/-- `CacheEntry`: serialised data plus creation timestamp (ms). -/
structure CacheEntry where
  data : ElevationData
  timestamp : ℤ
deriving DecidableEq, Repr

/-- The components of the cache key string
`terrain-<lat4>-<lng4>-<areaKm>-<resolution>`. -/
structure CacheKey where
  latR : ℚ
  lngR : ℚ
  areaKm : ℚ
  resolution : ℕ
deriving DecidableEq, Repr

/-- `toFixed(4)` modelled as rounding to 4 decimal places. -/
def round4 (q : ℚ) : ℚ := (round (q * 10000) : ℤ) / 10000

/-- `getCacheKey`. -/
def getCacheKey (config : TerrainConfig) : CacheKey :=
  ⟨round4 config.lat, round4 config.lng, config.areaKm, config.resolution⟩

/-- The 24-hour TTL in milliseconds. -/
def ttl : ℤ := 24 * 60 * 60 * 1000

/-- The `localStorage` contents, restricted to terrain cache entries. -/
abbrev Store := CacheKey → Option CacheEntry

/-- `getFromCache`: a read either misses (deleting the entry when it has
expired) or returns the stored data re-tagged with source `cache`. -/
def getFromCache (store : Store) (now : ℤ) (config : TerrainConfig) :
    Option ElevationData × Store :=
  let key := getCacheKey config
  match store key with
  | none => (none, store)
  | some entry =>
    if now - entry.timestamp > ttl then
      (none, fun k => if k = key then none else store k)
    else
      (some { entry.data with source := .cache }, store)

/-- `saveToCache`: write the result under the config's key with a fresh
timestamp. -/
def saveToCache (store : Store) (now : ℤ) (config : TerrainConfig)
    (data : ElevationData) : Store :=
  fun k => if k = getCacheKey config then some ⟨data, now⟩ else store k

/-- `getBoundingBox`: half extents from 111.32 km per degree of latitude and
`111.32 * cos(lat·π/180)` km per degree of longitude. -/
def getBoundingBox (cosDeg : ℚ → ℚ) (lat lng areaKm : ℚ) : Bounds :=
  let kmPerDegreeLat : ℚ := 11132 / 100
  let kmPerDegreeLng : ℚ := 11132 / 100 * cosDeg lat
  let deltaLat := areaKm / 2 / kmPerDegreeLat
  let deltaLng := areaKm / 2 / kmPerDegreeLng
  ⟨lat + deltaLat, lat - deltaLat, lng + deltaLng, lng - deltaLng⟩

/-- The `slice(i, i + size)` chunking loop of the providers. -/
def chunksOf {α : Type} (size : ℕ) : List α → List (List α)
  | [] => []
  | a :: l => ((a :: l).take size) :: chunksOf size (l.drop (size - 1))
termination_by l => l.length
decreasing_by
  simp only [List.length_drop, List.length_cons]
  omega

/-- A chunked network oracle: chunk index to decoded samples or a thrown
error. -/
abbrev ChunkOracle (ε : Type) := ℕ → Except ε (List ℚ)

/-- The sequential chunk loop of `fetchOpenTopoData` / `fetchOpenMeteo`:
any chunk failure is rethrown, aborting the remaining chunks. -/
def runChunks {ε : Type} (oracle : ChunkOracle ε) :
    ℕ → List (List ℕ) → Except ε (List ℚ)
  | _, [] => .ok []
  | i, _ :: rest =>
      match oracle i with
      | .error e => .error e
      | .ok vals =>
        match runChunks oracle (i + 1) rest with
        | .error e => .error e
        | .ok more => .ok (vals ++ more)

/-- `minElev = Math.min(minElev, elev)` with the `Infinity` start encoded as
`none`. -/
def updMin : Option ℚ → ℚ → Option ℚ
  | none, v => some v
  | some m, v => some (min m v)

/-- `maxElev = Math.max(maxElev, elev)` with the `-Infinity` start encoded as
`none`. -/
def updMax : Option ℚ → ℚ → Option ℚ
  | none, v => some v
  | some m, v => some (max m v)

/-- Running min/max over a list of decoded samples. -/
def foldMinMax (vals : List ℚ) (acc : Option ℚ × Option ℚ) :
    Option ℚ × Option ℚ :=
  vals.foldl (fun a v => (updMin a.1 v, updMax a.2 v)) acc

/-- `Float32Array` write semantics: the grid has fixed length `n`, writes at
offsets beyond `n` are dropped, unwritten cells stay `0`. -/
def toGrid (n : ℕ) (written : List ℚ) : List ℚ :=
  written.take n ++ List.replicate (n - written.length) 0

/-- `fetchOpenTopoData`: chunk size 100, aborts on any chunk failure,
defaults `min`/`max` to `0`/`100` when no sample was seen, tags
`opentopodata`. -/
def fetchOpenTopoData {ε : Type} (cosDeg : ℚ → ℚ) (oracle : ChunkOracle ε)
    (config : TerrainConfig) : Except ε ElevationData :=
  let resolution := config.resolution
  let bounds := getBoundingBox cosDeg config.lat config.lng config.areaKm
  let n := resolution * resolution
  let chunks := chunksOf 100 (List.range n)
  match runChunks oracle 0 chunks with
  | .error e => .error e
  | .ok written =>
    let mm := foldMinMax written (none, none)
    .ok { elevations := toGrid n written
          width := resolution
          height := resolution
          minElevation := mm.1.getD 0
          maxElevation := mm.2.getD 100
          bounds := bounds
          source := .opentopodata }

/-- `fetchOpenMeteo`: chunk size 500, aborts on any chunk failure, tags
`openmeteo`. -/
def fetchOpenMeteo {ε : Type} (cosDeg : ℚ → ℚ) (oracle : ChunkOracle ε)
    (config : TerrainConfig) : Except ε ElevationData :=
  let resolution := config.resolution
  let bounds := getBoundingBox cosDeg config.lat config.lng config.areaKm
  let n := resolution * resolution
  let chunks := chunksOf 500 (List.range n)
  match runChunks oracle 0 chunks with
  | .error e => .error e
  | .ok written =>
    let mm := foldMinMax written (none, none)
    .ok { elevations := toGrid n written
          width := resolution
          height := resolution
          minElevation := mm.1.getD 0
          maxElevation := mm.2.getD 100
          bounds := bounds
          source := .openmeteo }

/-- The chunk loop of `fetchOpenElevation`: a failed chunk is caught, filled
with `chunk.length` zero placeholders (which do not feed min/max), and the
loop continues.  Returns (written samples, samples counted for min/max). -/
def oeRun {ε : Type} (oracle : ChunkOracle ε) :
    ℕ → List (List ℕ) → List ℚ × List ℚ
  | _, [] => ([], [])
  | i, chunk :: rest =>
      let p := oeRun oracle (i + 1) rest
      match oracle i with
      | .ok vals => (vals ++ p.1, vals ++ p.2)
      | .error _ => (List.replicate chunk.length 0 ++ p.1, p.2)

/-- `fetchOpenElevation`: chunk size 100, never aborts — failed chunks become
zero placeholders — tags `openelevation`. -/
def fetchOpenElevation {ε : Type} (cosDeg : ℚ → ℚ) (oracle : ChunkOracle ε)
    (config : TerrainConfig) : Except ε ElevationData :=
  let resolution := config.resolution
  let bounds := getBoundingBox cosDeg config.lat config.lng config.areaKm
  let n := resolution * resolution
  let chunks := chunksOf 100 (List.range n)
  let p := oeRun oracle 0 chunks
  let mm := foldMinMax p.2 (none, none)
  .ok { elevations := toGrid n p.1
        width := resolution
        height := resolution
        minElevation := mm.1.getD 0
        maxElevation := mm.2.getD 100
        bounds := bounds
        source := .openelevation }

/-- The `auto` loop of `fetchTerrain`: try Open Topo Data, then Open-Meteo,
then Open-Elevation; stop at the first success; keep the last error.  Also
returns the list of providers invoked, in order. -/
def autoFetch {ε : Type} (cosDeg : ℚ → ℚ) (otd om oe : ChunkOracle ε)
    (config : TerrainConfig) : Except ε ElevationData × List ProviderName :=
  match fetchOpenTopoData cosDeg otd config with
  | .ok d => (.ok d, [.opentopodata])
  | .error _ =>
    match fetchOpenMeteo cosDeg om config with
    | .ok d => (.ok d, [.opentopodata, .openmeteo])
    | .error _ =>
      match fetchOpenElevation cosDeg oe config with
      | .ok d => (.ok d, [.opentopodata, .openmeteo, .openelevation])
      | .error e3 =>
          (.error e3, [.opentopodata, .openmeteo, .openelevation])

/-- The provider-dispatch part of `fetchTerrain` (pinned provider or auto),
with the list of providers invoked. -/
def liveFetch {ε : Type} (cosDeg : ℚ → ℚ) (otd om oe : ChunkOracle ε)
    (provider : ElevationAPIProvider) (config : TerrainConfig) :
    Except ε ElevationData × List ProviderName :=
  match provider with
  | .opentopodata => (fetchOpenTopoData cosDeg otd config, [.opentopodata])
  | .openmeteo => (fetchOpenMeteo cosDeg om config, [.openmeteo])
  | .openelevation => (fetchOpenElevation cosDeg oe config, [.openelevation])
  | .auto => autoFetch cosDeg otd om oe config

/-- Outcome of a `fetchTerrain` call: its result, the cache store after the
call, and the providers invoked. -/
structure FetchOutcome (ε : Type) where
  result : Except ε ElevationData
  store : Store
  calls : List ProviderName

/-- `fetchTerrain`: check the cache first (when `useCache`), otherwise run
the provider dispatch and, on success, save the result back to the cache. -/
def fetchTerrain {ε : Type} (cosDeg : ℚ → ℚ) (otd om oe : ChunkOracle ε)
    (provider : ElevationAPIProvider) (useCache : Bool) (now : ℤ)
    (store : Store) (config : TerrainConfig) : FetchOutcome ε :=
  match (if useCache then getFromCache store now config else (none, store)) with
  | (some d, store1) => ⟨.ok d, store1, []⟩
  | (none, store1) =>
    match liveFetch cosDeg otd om oe provider config with
    | (.ok d, calls) =>
        ⟨.ok d, if useCache then saveToCache store1 now config d else store1,
          calls⟩
    | (.error e, calls) => ⟨.error e, store1, calls⟩

/-! ## Lemmas about the cache and the dispatcher -/

/-- Data returned by a cache hit is always re-tagged with source `cache`. -/
theorem getFromCache_some_source (store : Store) (now : ℤ)
    (config : TerrainConfig) (d : ElevationData) (st2 : Store)
    (h : getFromCache store now config = (some d, st2)) :
    d.source = .cache := by
  simp only [getFromCache] at h
  cases hk : store (getCacheKey config) with
  | none => rw [hk] at h; simp at h
  | some entry =>
    rw [hk] at h
    simp only [] at h
    split at h
    · simp at h
    · simp only [Prod.mk.injEq, Option.some.injEq] at h
      rw [← h.1]

/-- A cache read never changes the store at any other key. -/
theorem getFromCache_other (store : Store) (now : ℤ) (config : TerrainConfig)
    (k : CacheKey) (hk : k ≠ getCacheKey config) :
    (getFromCache store now config).2 k = store k := by
  simp only [getFromCache]
  cases hs : store (getCacheKey config) with
  | none => rfl
  | some entry =>
    simp only []
    split
    · simp only [if_neg hk]
    · rfl

/-- A cache write never changes the store at any other key. -/
theorem saveToCache_other (store : Store) (now : ℤ) (config : TerrainConfig)
    (d : ElevationData) (k : CacheKey) (hk : k ≠ getCacheKey config) :
    saveToCache store now config d k = store k := by
  unfold saveToCache
  rw [if_neg hk]

/-- C5: after a successful live `fetchTerrain` (result not tagged `cache`),
a second `fetchTerrain` for the identical config within the TTL window
invokes no provider and returns the first result's data re-tagged with
source `cache` (all other fields unchanged). -/
theorem C5_cache_hit {ε : Type} (cosDeg : ℚ → ℚ) (otd om oe : ChunkOracle ε)
    (p1 p2 : ElevationAPIProvider) (config : TerrainConfig) (store : Store)
    (t0 t1 : ℤ) (d1 : ElevationData)
    (h1 : (fetchTerrain cosDeg otd om oe p1 true t0 store config).result = .ok d1)
    (hlive : d1.source ≠ .cache)
    (httl : t1 - t0 ≤ ttl) :
    (fetchTerrain cosDeg otd om oe p2 true t1
      (fetchTerrain cosDeg otd om oe p1 true t0 store config).store config).calls
        = [] ∧
    (fetchTerrain cosDeg otd om oe p2 true t1
      (fetchTerrain cosDeg otd om oe p1 true t0 store config).store config).result
        = .ok { d1 with source := .cache } := by
  rcases hgc : getFromCache store t0 config with ⟨c, store1⟩
  cases c with
  | some d =>
    have hstep : fetchTerrain cosDeg otd om oe p1 true t0 store config =
        ⟨.ok d, store1, []⟩ := by
      simp [fetchTerrain, hgc]
    rw [hstep] at h1
    simp only [Except.ok.injEq] at h1
    exact absurd (h1 ▸ getFromCache_some_source store t0 config d store1 hgc) hlive
  | none =>
    rcases hlf : liveFetch cosDeg otd om oe p1 config with ⟨r, calls⟩
    cases r with
    | error e =>
      have hstep : fetchTerrain cosDeg otd om oe p1 true t0 store config =
          ⟨.error e, store1, calls⟩ := by
        simp [fetchTerrain, hgc, hlf]
      rw [hstep] at h1
      simp at h1
    | ok d =>
      have hstep : fetchTerrain cosDeg otd om oe p1 true t0 store config =
          ⟨.ok d, saveToCache store1 t0 config d, calls⟩ := by
        simp [fetchTerrain, hgc, hlf]
      rw [hstep] at h1
      simp only [Except.ok.injEq] at h1
      rw [h1] at hstep
      rw [hstep]
      have hget2 : getFromCache (saveToCache store1 t0 config d1) t1 config =
          (some { d1 with source := .cache }, saveToCache store1 t0 config d1) := by
        simp only [getFromCache, saveToCache, if_true]
        rw [if_neg (by omega : ¬ t1 - t0 > ttl)]
      constructor
      · simp [fetchTerrain, hget2]
      · simp [fetchTerrain, hget2]

/-- Concrete cosine stub for witnesses (its value is irrelevant to every
claim). -/
def cosOneW : ℚ → ℚ := fun _ => 1

/-- Concrete 1×1 config for witnesses. -/
def cfgW : TerrainConfig := ⟨0, 0, 12, 512, 2, 1⟩

/-- Concrete always-succeeding Open Topo Data oracle. -/
def otdW : ChunkOracle String := fun _ => .ok [5]

/-- Concrete always-succeeding Open-Meteo oracle. -/
def omW : ChunkOracle String := fun _ => .ok [7]

/-- Concrete always-failing oracle. -/
def badW : ChunkOracle String := fun _ => .error "chunk failed"

/-- Concrete empty cache store. -/
def emptyStoreW : Store := fun _ => none

/-- The `ElevationData` the Open Topo Data model produces for `cfgW` under
`otdW`. -/
def d1W : ElevationData :=
  { elevations := [5], width := 1, height := 1, minElevation := 5,
    maxElevation := 5, bounds := getBoundingBox cosOneW 0 0 2,
    source := .opentopodata }

/-- C5 witness: a live fetch at time 0 followed by a fetch at time 1 for the
same config hits the cache: no provider calls, data re-tagged `cache`. -/
theorem C5_cache_hit_witness :
    (fetchTerrain cosOneW otdW omW otdW .opentopodata true 1
      (fetchTerrain cosOneW otdW omW otdW .opentopodata true 0
        emptyStoreW cfgW).store cfgW).calls = [] ∧
    (fetchTerrain cosOneW otdW omW otdW .opentopodata true 1
      (fetchTerrain cosOneW otdW omW otdW .opentopodata true 0
        emptyStoreW cfgW).store cfgW).result
      = .ok { d1W with source := .cache } :=
  C5_cache_hit cosOneW otdW omW otdW .opentopodata .opentopodata cfgW
    emptyStoreW 0 1 d1W
    (by simp [fetchTerrain, getFromCache, emptyStoreW, liveFetch,
      fetchOpenTopoData, cfgW, chunksOf, runChunks, otdW, foldMinMax, updMin,
      updMax, toGrid, d1W, List.range_succ])
    (by simp [d1W])
    (by norm_num [ttl])

/-- The auto loop always invokes Open Topo Data first. -/
theorem autoFetch_calls_head {ε : Type} (cosDeg : ℚ → ℚ)
    (otd om oe : ChunkOracle ε) (config : TerrainConfig) :
    ∃ rest, (autoFetch cosDeg otd om oe config).2 = .opentopodata :: rest := by
  unfold autoFetch
  cases h1 : fetchOpenTopoData cosDeg otd config with
  | ok d => exact ⟨[], rfl⟩
  | error e1 =>
    cases h2 : fetchOpenMeteo cosDeg om config with
    | ok d => exact ⟨[.openmeteo], rfl⟩
    | error e2 =>
      cases h3 : fetchOpenElevation cosDeg oe config with
      | ok d => exact ⟨[.openmeteo, .openelevation], rfl⟩
      | error e3 => exact ⟨[.openmeteo, .openelevation], rfl⟩

/-- C6: cache expiry is lazy.  A read of an entry older than the 24-hour TTL
misses, deletes exactly that key (leaving every other key untouched), and the
subsequent auto fetch for that config invokes providers again; moreover no
`fetchTerrain` call ever touches a store key other than its own config's key
(entries are never swept except at read time). -/
theorem C6_lazy_expiry {ε : Type} (cosDeg : ℚ → ℚ) (otd om oe : ChunkOracle ε)
    (config : TerrainConfig) (store : Store) (now : ℤ) (entry : CacheEntry)
    (hstore : store (getCacheKey config) = some entry)
    (hexp : now - entry.timestamp > ttl) :
    (getFromCache store now config).1 = none ∧
    (getFromCache store now config).2 (getCacheKey config) = none ∧
    (∀ k, k ≠ getCacheKey config → (getFromCache store now config).2 k = store k) ∧
    (fetchTerrain cosDeg otd om oe .auto true now store config).calls ≠ [] ∧
    (∀ (p : ElevationAPIProvider) (b : Bool) (st : Store) (t : ℤ)
        (c : TerrainConfig) (k : CacheKey), k ≠ getCacheKey c →
      (fetchTerrain cosDeg otd om oe p b t st c).store k = st k) := by
  have hget : getFromCache store now config =
      (none, fun k => if k = getCacheKey config then none else store k) := by
    simp only [getFromCache, hstore]
    rw [if_pos hexp]
  refine ⟨by rw [hget], by rw [hget]; simp, ?_, ?_, ?_⟩
  · intro k hk
    rw [hget]
    simp [if_neg hk]
  · obtain ⟨rest, hrest⟩ := autoFetch_calls_head cosDeg otd om oe config
    rcases haf : autoFetch cosDeg otd om oe config with ⟨r, cs⟩
    rw [haf] at hrest
    have hcs : cs = ProviderName.opentopodata :: rest := hrest
    have hcalls : (fetchTerrain cosDeg otd om oe .auto true now store
        config).calls = cs := by
      cases r with
      | ok d => simp [fetchTerrain, hget, liveFetch, haf]
      | error e => simp [fetchTerrain, hget, liveFetch, haf]
    rw [hcalls, hcs]
    simp
  · intro p b st t c k hk
    cases b with
    | false =>
      rcases hlf : liveFetch cosDeg otd om oe p c with ⟨r, cs⟩
      cases r with
      | ok d => simp [fetchTerrain, hlf]
      | error e => simp [fetchTerrain, hlf]
    | true =>
      rcases hgc : getFromCache st t c with ⟨copt, st1⟩
      have hst1 : st1 k = st k := by
        have h := getFromCache_other st t c k hk
        rw [hgc] at h
        exact h
      cases copt with
      | some d =>
        have hstep : fetchTerrain cosDeg otd om oe p true t st c =
            ⟨.ok d, st1, []⟩ := by simp [fetchTerrain, hgc]
        rw [hstep]
        exact hst1
      | none =>
        rcases hlf : liveFetch cosDeg otd om oe p c with ⟨r, cs⟩
        cases r with
        | ok d =>
          have hstep : fetchTerrain cosDeg otd om oe p true t st c =
              ⟨.ok d, saveToCache st1 t c d, cs⟩ := by
            simp [fetchTerrain, hgc, hlf]
          rw [hstep]
          show saveToCache st1 t c d k = st k
          simp only [saveToCache_other st1 t c d k hk, hst1]
        | error e =>
          have hstep : fetchTerrain cosDeg otd om oe p true t st c =
              ⟨.error e, st1, cs⟩ := by
            simp [fetchTerrain, hgc, hlf]
          rw [hstep]
          exact hst1

/-- Concrete expired cache entry for the C6 witness. -/
def entryW : CacheEntry := ⟨d1W, 0⟩

/-- Concrete store holding only the expired entry. -/
def storeExpW : Store :=
  fun k => if k = getCacheKey cfgW then some entryW else none

/-- C6 witness: with the entry written at time `0` and read at `ttl + 1`,
the read misses and the subsequent auto fetch invokes providers. -/
theorem C6_lazy_expiry_witness :
    (getFromCache storeExpW (ttl + 1) cfgW).1 = none ∧
    (fetchTerrain cosOneW otdW omW otdW .auto true (ttl + 1) storeExpW
      cfgW).calls ≠ [] := by
  have h := C6_lazy_expiry cosOneW otdW omW otdW cfgW storeExpW (ttl + 1)
    entryW (by simp [storeExpW]) (by simp [entryW])
  exact ⟨h.1, h.2.2.2.1⟩

/-- Open Topo Data results are tagged with its own source name. -/
theorem fetchOpenTopoData_source {ε : Type} (cosDeg : ℚ → ℚ)
    (oracle : ChunkOracle ε) (config : TerrainConfig) (d : ElevationData)
    (h : fetchOpenTopoData cosDeg oracle config = .ok d) :
    d.source = .opentopodata := by
  simp only [fetchOpenTopoData] at h
  split at h
  · exact absurd h (by simp)
  · simp only [Except.ok.injEq] at h
    rw [← h]

/-- Open-Meteo results are tagged with its own source name. -/
theorem fetchOpenMeteo_source {ε : Type} (cosDeg : ℚ → ℚ)
    (oracle : ChunkOracle ε) (config : TerrainConfig) (d : ElevationData)
    (h : fetchOpenMeteo cosDeg oracle config = .ok d) :
    d.source = .openmeteo := by
  simp only [fetchOpenMeteo] at h
  split at h
  · exact absurd h (by simp)
  · simp only [Except.ok.injEq] at h
    rw [← h]

/-- Open-Elevation results are tagged with its own source name. -/
theorem fetchOpenElevation_source {ε : Type} (cosDeg : ℚ → ℚ)
    (oracle : ChunkOracle ε) (config : TerrainConfig) (d : ElevationData)
    (h : fetchOpenElevation cosDeg oracle config = .ok d) :
    d.source = .openelevation := by
  simp only [fetchOpenElevation, Except.ok.injEq] at h
  rw [← h]

/-- With `useCache = false`, `fetchTerrain` is exactly the provider dispatch
and leaves the store unchanged. -/
theorem fetchTerrain_nocache {ε : Type} (cosDeg : ℚ → ℚ)
    (otd om oe : ChunkOracle ε) (p : ElevationAPIProvider) (now : ℤ)
    (store : Store) (config : TerrainConfig) :
    fetchTerrain cosDeg otd om oe p false now store config =
      ⟨(liveFetch cosDeg otd om oe p config).1, store,
        (liveFetch cosDeg otd om oe p config).2⟩ := by
  rcases hlf : liveFetch cosDeg otd om oe p config with ⟨r, cs⟩
  cases r with
  | ok d => simp [fetchTerrain, hlf]
  | error e => simp [fetchTerrain, hlf]

/-- C7: in auto mode the providers are tried in the fixed order Open Topo
Data, Open-Meteo, Open-Elevation on the same config; the first success is
returned, tagged with the succeeding provider's own source name; and a thrown
result occurs only when every provider failed, surfacing the last provider's
error. -/
theorem C7_auto_order_and_fallback {ε : Type} (cosDeg : ℚ → ℚ)
    (otd om oe : ChunkOracle ε) (config : TerrainConfig) (now : ℤ)
    (store : Store) :
    (∀ d, fetchOpenTopoData cosDeg otd config = .ok d →
      (fetchTerrain cosDeg otd om oe .auto false now store config).result
          = .ok d ∧
      (fetchTerrain cosDeg otd om oe .auto false now store config).calls
          = [.opentopodata] ∧
      d.source = .opentopodata) ∧
    (∀ e1 d, fetchOpenTopoData cosDeg otd config = .error e1 →
      fetchOpenMeteo cosDeg om config = .ok d →
      (fetchTerrain cosDeg otd om oe .auto false now store config).result
          = .ok d ∧
      (fetchTerrain cosDeg otd om oe .auto false now store config).calls
          = [.opentopodata, .openmeteo] ∧
      d.source = .openmeteo) ∧
    (∀ e1 e2 d, fetchOpenTopoData cosDeg otd config = .error e1 →
      fetchOpenMeteo cosDeg om config = .error e2 →
      fetchOpenElevation cosDeg oe config = .ok d →
      (fetchTerrain cosDeg otd om oe .auto false now store config).result
          = .ok d ∧
      (fetchTerrain cosDeg otd om oe .auto false now store config).calls
          = [.opentopodata, .openmeteo, .openelevation] ∧
      d.source = .openelevation) ∧
    (∀ e, (fetchTerrain cosDeg otd om oe .auto false now store config).result
          = .error e →
      (∃ e1, fetchOpenTopoData cosDeg otd config = .error e1) ∧
      (∃ e2, fetchOpenMeteo cosDeg om config = .error e2) ∧
      fetchOpenElevation cosDeg oe config = .error e) := by
  refine ⟨?_, ?_, ?_, ?_⟩
  · intro d h1
    rw [fetchTerrain_nocache]
    exact ⟨by simp [liveFetch, autoFetch, h1],
      by simp [liveFetch, autoFetch, h1],
      fetchOpenTopoData_source cosDeg otd config d h1⟩
  · intro e1 d h1 h2
    rw [fetchTerrain_nocache]
    exact ⟨by simp [liveFetch, autoFetch, h1, h2],
      by simp [liveFetch, autoFetch, h1, h2],
      fetchOpenMeteo_source cosDeg om config d h2⟩
  · intro e1 e2 d h1 h2 h3
    rw [fetchTerrain_nocache]
    exact ⟨by simp [liveFetch, autoFetch, h1, h2, h3],
      by simp [liveFetch, autoFetch, h1, h2, h3],
      fetchOpenElevation_source cosDeg oe config d h3⟩
  · intro e h
    rw [fetchTerrain_nocache] at h
    simp only [liveFetch] at h
    cases h1 : fetchOpenTopoData cosDeg otd config with
    | ok d => simp [autoFetch, h1] at h
    | error e1 =>
      cases h2 : fetchOpenMeteo cosDeg om config with
      | ok d => simp [autoFetch, h1, h2] at h
      | error e2 =>
        cases h3 : fetchOpenElevation cosDeg oe config with
        | ok d => simp [autoFetch, h1, h2, h3] at h
        | error e3 =>
          simp only [autoFetch, h1, h2, h3, Except.error.injEq] at h
          exact ⟨⟨e1, rfl⟩, ⟨e2, rfl⟩, by rw [h]⟩

/-- The `ElevationData` the Open-Meteo model produces for `cfgW` under
`omW`. -/
def d2W : ElevationData :=
  { elevations := [7], width := 1, height := 1, minElevation := 7,
    maxElevation := 7, bounds := getBoundingBox cosOneW 0 0 2,
    source := .openmeteo }

/-- C7 witness: with the first provider failing and the second succeeding,
the auto fetch returns the second provider's result tagged `openmeteo`,
having invoked exactly Open Topo Data then Open-Meteo. -/
theorem C7_auto_order_and_fallback_witness :
    (fetchTerrain cosOneW badW omW omW .auto false 0 emptyStoreW cfgW).result
        = .ok d2W ∧
    (fetchTerrain cosOneW badW omW omW .auto false 0 emptyStoreW cfgW).calls
        = [.opentopodata, .openmeteo] ∧
    d2W.source = .openmeteo := by
  have h := (C7_auto_order_and_fallback cosOneW badW omW omW cfgW 0
      emptyStoreW).2.1 "chunk failed" d2W
    (by simp [fetchOpenTopoData, badW, cfgW, chunksOf, runChunks,
      List.range_succ])
    (by simp [fetchOpenMeteo, omW, cfgW, chunksOf, runChunks, foldMinMax,
      updMin, updMax, toGrid, d2W, List.range_succ])
  exact h

/-- The abort-on-failure chunk loop errors with the first failing chunk's
error. -/
theorem runChunks_error {ε : Type} (oracle : ChunkOracle ε) :
    ∀ (chunks : List (List ℕ)) (start i : ℕ) (e : ε),
      (∀ j, j < i → ∃ v, oracle (start + j) = .ok v) →
      oracle (start + i) = .error e → i < chunks.length →
      runChunks oracle start chunks = .error e := by
  intro chunks
  induction chunks with
  | nil => intro start i e _ _ hi; simp at hi
  | cons c rest ih =>
    intro start i e hok herr hi
    cases i with
    | zero =>
      have h0 : oracle start = .error e := by simpa using herr
      simp only [runChunks, h0]
    | succ i2 =>
      obtain ⟨v, hv⟩ := hok 0 (Nat.succ_pos i2)
      have hv0 : oracle start = .ok v := by simpa using hv
      have hrec : runChunks oracle (start + 1) rest = .error e := by
        apply ih (start + 1) i2 e
        · intro j hj
          obtain ⟨w, hw⟩ := hok (j + 1) (by omega)
          refine ⟨w, ?_⟩
          rw [show start + 1 + j = start + (j + 1) by omega]
          exact hw
        · rw [show start + 1 + i2 = start + (i2 + 1) by omega]
          exact herr
        · simpa using hi
      simp only [runChunks, hv0, hrec]

/-- Concatenating the chunks gives back the original list (positive chunk
size). -/
theorem chunksOf_join {α : Type} (size : ℕ) (hsz : 0 < size) :
    ∀ l : List α, (chunksOf size l).flatten = l := by
  intro l
  generalize hn : l.length = n
  induction n using Nat.strong_induction_on generalizing l with
  | _ n ih =>
    cases l with
    | nil => simp [chunksOf]
    | cons a t =>
      rw [chunksOf]
      simp only [List.flatten_cons]
      have hlen : (t.drop (size - 1)).length < n := by
        rw [← hn]
        simp only [List.length_drop, List.length_cons]
        omega
      rw [ih _ hlen _ rfl]
      cases size with
      | zero => omega
      | succ s =>
        simp only [List.take_succ_cons, Nat.succ_sub_one, List.cons_append,
          List.take_append_drop]

/-- The fixed-size grid always has exactly `n` cells. -/
theorem toGrid_length (n : ℕ) (w : List ℚ) : (toGrid n w).length = n := by
  simp [toGrid]
  omega

/-- When exactly `n` samples were written, the grid is the written list. -/
theorem toGrid_of_length (n : ℕ) (w : List ℚ) (h : w.length = n) :
    toGrid n w = w := by
  subst h
  simp [toGrid]

/-- Length of the graceful loop's written samples: every chunk, failed or
not, contributes exactly its chunk's length (given well-sized successful
responses). -/
theorem oeRun_length {ε : Type} (oracle : ChunkOracle ε) :
    ∀ (chunks : List (List ℕ)) (start : ℕ),
      (∀ j, j < chunks.length → ∀ v, oracle (start + j) = .ok v →
        v.length = (chunks.getD j []).length) →
      (oeRun oracle start chunks).1.length = (chunks.map List.length).sum := by
  intro chunks
  induction chunks with
  | nil => intro start _; simp [oeRun]
  | cons c rest ih =>
    intro start hlen
    have hrec := ih (start + 1) (fun j hj v hv => by
      have h2 := hlen (j + 1) (by simp only [List.length_cons]; omega) v
        (by rw [show start + (j + 1) = start + 1 + j by omega]; exact hv)
      simpa using h2)
    cases hv : oracle start with
    | ok vals =>
      have hl : vals.length = c.length := by
        have := hlen 0 (by simp) vals (by simpa using hv)
        simpa using this
      simp only [oeRun, hv]
      simp [hrec, hl]
    | error e =>
      simp only [oeRun, hv]
      simp [hrec]

/-- Decomposition of the graceful loop's output around a failed chunk: the
failed chunk's cells are zero placeholders, located after exactly the lengths
of the preceding chunks. -/
theorem oeRun_split {ε : Type} (oracle : ChunkOracle ε) :
    ∀ (chunks : List (List ℕ)) (start i : ℕ) (e : ε),
      (∀ j, j < chunks.length → ∀ v, oracle (start + j) = .ok v →
        v.length = (chunks.getD j []).length) →
      oracle (start + i) = .error e → i < chunks.length →
      ∃ pre post, (oeRun oracle start chunks).1 =
          pre ++ (List.replicate (chunks.getD i []).length 0 ++ post) ∧
        pre.length = ((chunks.take i).map List.length).sum := by
  intro chunks
  induction chunks with
  | nil => intro start i e _ _ hi; simp at hi
  | cons c rest ih =>
    intro start i e hlen herr hi
    cases i with
    | zero =>
      have h0 : oracle start = .error e := by simpa using herr
      refine ⟨[], (oeRun oracle (start + 1) rest).1, ?_, by simp⟩
      simp only [oeRun, h0, List.getD_cons_zero, List.nil_append]
    | succ i2 =>
      have hlen2 : ∀ j, j < rest.length → ∀ v, oracle (start + 1 + j) = .ok v →
          v.length = (rest.getD j []).length := fun j hj v hv => by
        have h2 := hlen (j + 1) (by simp only [List.length_cons]; omega) v
          (by rw [show start + (j + 1) = start + 1 + j by omega]; exact hv)
        simpa using h2
      have herr2 : oracle (start + 1 + i2) = .error e := by
        rw [show start + 1 + i2 = start + (i2 + 1) by omega]
        exact herr
      obtain ⟨pre, post, hsplit, hplen⟩ :=
        ih (start + 1) i2 e hlen2 herr2 (by simpa using hi)
      cases hv : oracle start with
      | ok vals =>
        refine ⟨vals ++ pre, post, ?_, ?_⟩
        · simp only [oeRun, hv, List.getD_cons_succ]
          rw [hsplit, List.append_assoc]
        · have hl : vals.length = c.length := by
            have := hlen 0 (by simp) vals (by simpa using hv)
            simpa using this
          simp [hplen, hl, List.take_succ_cons]
      | error e2 =>
        refine ⟨List.replicate c.length 0 ++ pre, post, ?_, ?_⟩
        · simp only [oeRun, hv, List.getD_cons_succ]
          rw [hsplit, List.append_assoc]
        · simp [hplen, List.take_succ_cons]

/-- C8: chunk-failure handling per provider.  Open Topo Data and Open-Meteo
rethrow the first failing chunk's error, aborting the whole fetch (no partial
grid is returned); Open-Elevation never fails — it always returns a full
`resolution × resolution` grid, and (for well-sized successful responses) the
cells of a failed chunk are exactly zero placeholders. -/
theorem C8_chunk_failure {ε : Type} (cosDeg : ℚ → ℚ) (config : TerrainConfig)
    (chunks100 chunks500 : List (List ℕ))
    (h100 : chunks100 =
      chunksOf 100 (List.range (config.resolution * config.resolution)))
    (h500 : chunks500 =
      chunksOf 500 (List.range (config.resolution * config.resolution))) :
    (∀ (oracle : ChunkOracle ε) (i : ℕ) (e : ε),
      (∀ j, j < i → ∃ v, oracle j = .ok v) → oracle i = .error e →
      i < chunks100.length →
      fetchOpenTopoData cosDeg oracle config = .error e) ∧
    (∀ (oracle : ChunkOracle ε) (i : ℕ) (e : ε),
      (∀ j, j < i → ∃ v, oracle j = .ok v) → oracle i = .error e →
      i < chunks500.length →
      fetchOpenMeteo cosDeg oracle config = .error e) ∧
    (∀ oracle : ChunkOracle ε, ∃ d,
      fetchOpenElevation cosDeg oracle config = .ok d ∧
      d.elevations.length = config.resolution * config.resolution ∧
      d.width = config.resolution ∧ d.height = config.resolution) ∧
    (∀ (oracle : ChunkOracle ε) (i : ℕ) (e : ε),
      (∀ j v, oracle j = .ok v → v.length = (chunks100.getD j []).length) →
      oracle i = .error e → i < chunks100.length →
      ∃ d, fetchOpenElevation cosDeg oracle config = .ok d ∧
        (d.elevations.drop
            (((chunks100.take i).map List.length).sum)).take
          (chunks100.getD i []).length
          = List.replicate (chunks100.getD i []).length 0) := by
  subst h100 h500
  refine ⟨?_, ?_, ?_, ?_⟩
  · intro oracle i e hok herr hi
    have hrun : runChunks oracle 0
        (chunksOf 100 (List.range (config.resolution * config.resolution)))
          = .error e :=
      runChunks_error oracle _ 0 i e
        (fun j hj => by simpa using hok j hj) (by simpa using herr) hi
    simp only [fetchOpenTopoData, hrun]
  · intro oracle i e hok herr hi
    have hrun : runChunks oracle 0
        (chunksOf 500 (List.range (config.resolution * config.resolution)))
          = .error e :=
      runChunks_error oracle _ 0 i e
        (fun j hj => by simpa using hok j hj) (by simpa using herr) hi
    simp only [fetchOpenMeteo, hrun]
  · intro oracle
    exact ⟨_, rfl, toGrid_length _ _, rfl, rfl⟩
  · intro oracle i e hlen herr hi
    have hlen0 : ∀ j, j <
        (chunksOf 100 (List.range (config.resolution * config.resolution))).length →
        ∀ v, oracle (0 + j) = .ok v →
        v.length = ((chunksOf 100
          (List.range (config.resolution * config.resolution))).getD j []).length :=
      fun j _ v hv => hlen j v (by simpa using hv)
    have hw : (oeRun oracle 0
        (chunksOf 100 (List.range (config.resolution * config.resolution)))).1.length
          = config.resolution * config.resolution := by
      rw [oeRun_length oracle _ 0 hlen0]
      have hjoin := chunksOf_join 100 (by norm_num)
        (List.range (config.resolution * config.resolution))
      calc ((chunksOf 100
            (List.range (config.resolution * config.resolution))).map List.length).sum
          = (chunksOf 100
            (List.range (config.resolution * config.resolution))).flatten.length :=
            (List.length_flatten _).symm
        _ = config.resolution * config.resolution := by rw [hjoin]; simp
    obtain ⟨pre, post, hsplit, hplen⟩ :=
      oeRun_split oracle _ 0 i e hlen0 (by simpa using herr) hi
    refine ⟨_, rfl, ?_⟩
    show ((toGrid (config.resolution * config.resolution)
        (oeRun oracle 0 (chunksOf 100
          (List.range (config.resolution * config.resolution)))).1).drop _).take _ = _
    rw [toGrid_of_length _ _ hw, hsplit, ← hplen, List.drop_left]
    exact List.take_left' (by simp)

/-- C8 witness: with every chunk failing on the 1×1 grid, the first two
providers rethrow the chunk error while Open-Elevation still returns a full
grid. -/
theorem C8_chunk_failure_witness :
    fetchOpenTopoData cosOneW badW cfgW = .error "chunk failed" ∧
    fetchOpenMeteo cosOneW badW cfgW = .error "chunk failed" ∧
    (∃ d, fetchOpenElevation cosOneW badW cfgW = .ok d ∧
      d.elevations.length = cfgW.resolution * cfgW.resolution ∧
      d.width = cfgW.resolution ∧ d.height = cfgW.resolution) := by
  have h := C8_chunk_failure (ε := String) cosOneW cfgW [[0]] [[0]]
    (by simp [cfgW, chunksOf, List.range_succ])
    (by simp [cfgW, chunksOf, List.range_succ])
  exact ⟨h.1 badW 0 "chunk failed"
      (fun j hj => absurd hj (Nat.not_lt_zero j)) rfl (by simp),
    h.2.1 badW 0 "chunk failed"
      (fun j hj => absurd hj (Nat.not_lt_zero j)) rfl (by simp),
    h.2.2.1 badW⟩
